import Mathlib

/-
Verification of the Mongoose QPnapsack knapsack projection and the
edge-separator interface, shallowly embedded over the rationals.
Doubles of the C source are modelled as rationals; arrays are modelled
as functions from Nat together with an explicit length.
-/

namespace Mongoose

/-- Projection of a scalar onto the interval [0,1]; the nested ternary
of the source, x[k] = (xi < 0. ? 0. : xi > 1. ? 1. : xi). -/
def clip01 (z : ℚ) : ℚ := if z < 0 then 0 else if 1 < z then 1 else z

/-- One summand of the slope loop of QPnapsack (Mongoose_QPNapsack.cpp,
lines 162-174): with xi = y k - a k * lam, it adds a k when xi >= 1,
adds a k * xi when 0 < xi < 1, and nothing otherwise. -/
def slopeTerm (yi ai lam : ℚ) : ℚ :=
  if 1 ≤ yi - ai * lam then ai
  else if 0 < yi - ai * lam then ai * (yi - ai * lam)
  else 0

/-- The slope of the dual function computed by the loop of QPnapsack,
before the final adjustment by hi or lo. -/
def slope (y a : Nat → ℚ) (n : ℕ) (lam : ℚ) : ℚ :=
  ∑ k ∈ Finset.range n, slopeTerm (y k) (a k) lam

/-- Weighted sum over the first n entries, aᵀx in the comments of the
source. -/
def dotRange (a x : Nat → ℚ) (n : ℕ) : ℚ :=
  ∑ k ∈ Finset.range n, a k * x k

/-- The function s of the spec, s lam = aᵀ clip (y - lam a, 0, 1). -/
def sOf (y a : Nat → ℚ) (n : ℕ) (lam : ℚ) : ℚ :=
  ∑ k ∈ Finset.range n, a k * clip01 (y k - a k * lam)

/-- Squared euclidean distance of the first n entries. -/
def sqDist (u v : Nat → ℚ) (n : ℕ) : ℚ :=
  ∑ k ∈ Finset.range n, (u k - v k) ^ 2

/-- Membership in the feasible set of the napsack problem,
0 <= z <= 1 with lo <= aᵀz <= hi. -/
def napFeasible (a : Nat → ℚ) (n : ℕ) (lo hi : ℚ) (z : Nat → ℚ) : Prop :=
  (∀ k < n, 0 ≤ z k ∧ z k ≤ 1) ∧ lo ≤ dotRange a z n ∧ dotRange a z n ≤ hi

instance (a : Nat → ℚ) (n : ℕ) (lo hi : ℚ) (z : Nat → ℚ) :
    Decidable (napFeasible a n lo hi z) := by
  unfold napFeasible; infer_instance

/-- Solves f w = t for w in the segment from u to v, assuming f is
affine there; returns u when the segment is level. -/
def segSolve (f : ℚ → ℚ) (u v t : ℚ) : ℚ :=
  if f v = f u then u else u + (t - f u) * (v - u) / (f v - f u)

/-- Walk an ascending list of candidate break points, starting at u with
f u >= t, until f drops below t, then solve on that segment. -/
def napWalkUp (f : ℚ → ℚ) (t : ℚ) : ℚ → List ℚ → ℚ
  | u, [] => u
  | u, c :: cs => if f c < t then segSolve f u c t else napWalkUp f t c cs

/-- Walk a descending list of candidate break points, starting at u with
f u <= t, until f rises above t, then solve on that segment. -/
def napWalkDown (f : ℚ → ℚ) (t : ℚ) : ℚ → List ℚ → ℚ
  | u, [] => u
  | u, c :: cs => if t < f c then segSolve f u c t else napWalkDown f t c cs

/-- The break points of the piecewise linear slope: the lambda values at
which a component y k - a k * lam crosses 1 or 0. -/
def napBreakPoints (y a : Nat → ℚ) (n : ℕ) : List ℚ :=
  ((List.range n).map fun i => (y i - 1) / a i) ++
  ((List.range n).map fun i => y i / a i)

/-- Modelled from the spec: QPnapup (declared in Mongoose_QPNapUp.hpp, body
not among the sources) walks break points in increasing order of lambda,
using a heap of candidate lambda values at which a variable hits 0 or 1,
advancing until the slope crosses the target, and returns the lambda at
which the slope equals the target. -/
def QPnapup (y a : Nat → ℚ) (n : ℕ) (lam0 target : ℚ) : ℚ :=
  napWalkUp (fun lam => slope y a n lam) target lam0
    (((napBreakPoints y a n).filter fun b => lam0 < b).insertionSort (· ≤ ·))

/-- Modelled from the spec: QPnapdown (declared in Mongoose_QPNapDown.hpp,
body not among the sources) walks break points in decreasing order of
lambda, advancing until the slope crosses the target, and returns the
lambda at which the slope equals the target. -/
def QPnapdown (y a : Nat → ℚ) (n : ℕ) (lam0 target : ℚ) : ℚ :=
  napWalkDown (fun lam => slope y a n lam) target lam0
    (((napBreakPoints y a n).filter fun b => b < lam0).insertionSort (· ≥ ·))

/-- The starting-guess computation of QPnapsack (lines 136-156 of
Mongoose_QPNapsack.cpp): when FreeSet_status is present and the incoming
Lambda is nonzero, lambda is re-estimated from the estimated free set,
guarded by a2sum being nonzero. -/
def napLambda1 (y Gw : Nat → ℚ) (n : ℕ) (lo hi Lambda : ℚ)
    (FreeSet_status : Option (Nat → Int)) : ℚ :=
  match FreeSet_status with
  | none => Lambda
  | some fs =>
    if Lambda ≠ 0 then
      if (∑ k ∈ Finset.range n, (if fs k = 0 then Gw k * Gw k else 0)) ≠ 0
      then
        ((if Lambda > 0 then -hi else -lo) +
          ∑ k ∈ Finset.range n,
            (if fs k = 1 then Gw k else if fs k = 0 then y k * Gw k else 0)) /
        (∑ k ∈ Finset.range n, (if fs k = 0 then Gw k * Gw k else 0))
      else Lambda
    else Lambda

/-- The a2sum accumulator of the starting-guess loop. -/
def napA2sum (Gw : Nat → ℚ) (n : ℕ) (fs : Nat → Int) : ℚ :=
  ∑ k ∈ Finset.range n, (if fs k = 0 then Gw k * Gw k else 0)

/-- The case dispatch of QPnapsack (lines 179-295 of
Mongoose_QPNapsack.cpp), from the adjusted starting lambda to the final
lambda.  The slope variable of the source is slope x Gw n lambda1 and the
slope0 variable is slope x Gw n 0. -/
def napDispatch (x : Nat → ℚ) (n : ℕ) (lo hi : ℚ) (Gw : Nat → ℚ)
    (lambda1 : ℚ) : ℚ :=
  if lambda1 ≥ 0 ∧ slope x Gw n lambda1 ≥ hi then          -- case 1
    if slope x Gw n lambda1 > hi then
      max 0 (QPnapup x Gw n lambda1 hi)
    else lambda1
  else if lambda1 ≤ 0 ∧ slope x Gw n lambda1 ≤ lo then     -- case 2
    if slope x Gw n lambda1 < lo then
      min (QPnapdown x Gw n lambda1 lo) 0
    else lambda1
  else
    if lambda1 ≠ 0 then
      if lambda1 ≥ 0 ∧ slope x Gw n lambda1 < hi then      -- case 3
        if slope x Gw n 0 < lo then
          if QPnapdown x Gw n 0 lo > 0 then 0 else QPnapdown x Gw n 0 lo
        else if slope x Gw n 0 > hi then
          if QPnapdown x Gw n lambda1 hi < 0 then 0
          else QPnapdown x Gw n lambda1 hi
        else 0
      else                                                 -- case 4
        if slope x Gw n 0 > hi then
          max (QPnapup x Gw n 0 hi) 0
        else if slope x Gw n 0 < lo then
          min 0 (QPnapup x Gw n lambda1 lo)
        else 0
    else                                                   -- lambda == 0
      if slope x Gw n lambda1 < hi then                    -- case 3
        if slope x Gw n lambda1 < lo then
          min 0 (QPnapdown x Gw n lambda1 lo)
        else lambda1
      else                                                 -- case 4
        if slope x Gw n lambda1 > hi then
          max (QPnapup x Gw n lambda1 hi) 0
        else lambda1

/-- QPnapsack of Mongoose_QPNapsack.cpp, lines 114-325: x holds y on
input; returns the projected x together with the final lambda.  The case
dispatch mirrors the source; QPnapup and QPnapdown are modelled from the
spec. -/
def QPnapsack (x : Nat → ℚ) (n : ℕ) (lo hi : ℚ) (Gw : Nat → ℚ)
    (Lambda : ℚ) (FreeSet_status : Option (Nat → Int)) : (Nat → ℚ) × ℚ :=
  let lambda := napDispatch x n lo hi Gw
    (napLambda1 x Gw n lo hi Lambda FreeSet_status)
  (fun k => if lambda = 0 then clip01 (x k)
            else clip01 (x k - Gw k * lambda), lambda)

/-- The validator checkatx of Mongoose_QPNapsack.cpp, lines 94-112,
returning the ok flag that guards ASSERT(0): true exactly when the
assertion does not fire.  A missing weight vector counts as all ones. -/
def checkatx (x : Nat → ℚ) (a : Option (Nat → ℚ)) (n : ℕ)
    (lo hi : ℚ) : Bool :=
  let aval : Nat → ℚ := fun k => match a with | none => 1 | some av => av k
  let atx := ∑ k ∈ Finset.range n, aval k * x k
  (decide (∀ k < n, ¬(x k < 0) ∧ ¬(1 < x k))) &&
  !(decide (atx < lo - 1/1000)) && !(decide (hi + 1/1000 < atx))

/-! Basic facts about the clip operator and the slope. -/

theorem clip01_nonneg (z : ℚ) : 0 ≤ clip01 z := by
  unfold clip01; split <;> [exact le_refl 0; skip]
  split <;> [exact zero_le_one; linarith [not_lt.mp (by assumption : ¬ z < 0)]]

theorem clip01_le_one (z : ℚ) : clip01 z ≤ 1 := by
  unfold clip01; split <;> [exact zero_le_one; skip]
  split <;> [exact le_refl 1; linarith [not_lt.mp (by assumption : ¬ 1 < z)]]

theorem clip01_mono {z w : ℚ} (h : z ≤ w) : clip01 z ≤ clip01 w := by
  unfold clip01
  split_ifs <;> linarith

theorem clip01_of_mem {z : ℚ} (h0 : 0 ≤ z) (h1 : z ≤ 1) : clip01 z = z := by
  unfold clip01
  rw [if_neg (not_lt.mpr h0), if_neg (not_lt.mpr h1)]

theorem slopeTerm_eq (yi ai lam : ℚ) :
    slopeTerm yi ai lam = ai * clip01 (yi - ai * lam) := by
  unfold slopeTerm clip01
  rcases lt_trichotomy (yi - ai * lam) 0 with h | h | h
  · rw [if_neg (by linarith), if_neg (by linarith), if_pos h, mul_zero]
  · rw [if_neg (by linarith), if_neg (by linarith), if_neg (by linarith),
        if_neg (by linarith), h, mul_zero]
  · rw [if_neg (not_lt.mpr (le_of_lt h))]
    rcases lt_trichotomy (yi - ai * lam) 1 with h1 | h1 | h1
    · rw [if_neg (not_le.mpr h1), if_pos h, if_neg (not_lt.mpr (le_of_lt h1))]
    · rw [if_pos (le_of_eq h1.symm), if_neg (not_lt.mpr (le_of_eq h1)), h1, mul_one]
    · rw [if_pos (le_of_lt h1), if_pos h1, mul_one]

theorem slope_eq_sOf (y a : Nat → ℚ) (n : ℕ) (lam : ℚ) :
    slope y a n lam = sOf y a n lam := by
  unfold slope sOf
  exact Finset.sum_congr rfl fun k _ => slopeTerm_eq (y k) (a k) lam

theorem slope_anti (y a : Nat → ℚ) (n : ℕ) {lam mu : ℚ}
    (ha : ∀ i < n, 0 ≤ a i) (h : lam ≤ mu) :
    slope y a n mu ≤ slope y a n lam := by
  unfold slope
  refine Finset.sum_le_sum fun k hk => ?_
  rw [slopeTerm_eq, slopeTerm_eq]
  have hak := ha k (Finset.mem_range.mp hk)
  exact mul_le_mul_of_nonneg_left
    (clip01_mono (by nlinarith)) hak

theorem slope_nonneg (y a : Nat → ℚ) (n : ℕ) (lam : ℚ)
    (ha : ∀ i < n, 0 ≤ a i) : 0 ≤ slope y a n lam := by
  unfold slope
  refine Finset.sum_nonneg fun k hk => ?_
  rw [slopeTerm_eq]
  exact mul_nonneg (ha k (Finset.mem_range.mp hk)) (clip01_nonneg _)

theorem slope_le_sum (y a : Nat → ℚ) (n : ℕ) (lam : ℚ)
    (ha : ∀ i < n, 0 ≤ a i) :
    slope y a n lam ≤ ∑ k ∈ Finset.range n, a k := by
  unfold slope
  refine Finset.sum_le_sum fun k hk => ?_
  rw [slopeTerm_eq]
  calc a k * clip01 (y k - a k * lam)
      ≤ a k * 1 := mul_le_mul_of_nonneg_left (clip01_le_one _)
        (ha k (Finset.mem_range.mp hk))
    _ = a k := mul_one _

theorem slope_eq_zero (y a : Nat → ℚ) (n : ℕ) (lam : ℚ)
    (ha : ∀ i < n, 0 < a i) (h : ∀ i < n, y i / a i ≤ lam) :
    slope y a n lam = 0 := by
  unfold slope
  refine Finset.sum_eq_zero fun k hk => ?_
  have hk' := Finset.mem_range.mp hk
  have hak := ha k hk'
  have hle : y k - a k * lam ≤ 0 := by
    have := (div_le_iff₀ hak).mp (h k hk')
    nlinarith
  rw [slopeTerm_eq]
  unfold clip01
  split_ifs with h1 h2
  · exact mul_zero _
  · linarith
  · have h0 : y k - a k * lam = 0 := le_antisymm hle (not_lt.mp h1)
    rw [h0, mul_zero]

theorem slope_eq_total (y a : Nat → ℚ) (n : ℕ) (lam : ℚ)
    (ha : ∀ i < n, 0 < a i) (h : ∀ i < n, lam ≤ (y i - 1) / a i) :
    slope y a n lam = ∑ k ∈ Finset.range n, a k := by
  unfold slope
  refine Finset.sum_congr rfl fun k hk => ?_
  have hk' := Finset.mem_range.mp hk
  have hak := ha k hk'
  have : 1 ≤ y k - a k * lam := by
    have := (le_div_iff₀ hak).mp (h k hk')
    nlinarith
  unfold slopeTerm
  rw [if_pos this]

/-! The slope is affine between break points. -/

theorem slopeTerm_of_upper {yi ai lam : ℚ} (h : 1 ≤ yi - ai * lam) :
    slopeTerm yi ai lam = ai := by
  unfold slopeTerm; rw [if_pos h]

theorem slopeTerm_of_mid {yi ai lam : ℚ} (h0 : 0 ≤ yi - ai * lam)
    (h1 : yi - ai * lam ≤ 1) : slopeTerm yi ai lam = ai * (yi - ai * lam) := by
  unfold slopeTerm
  split_ifs with ha hb
  · have : yi - ai * lam = 1 := le_antisymm h1 ha
    rw [this, mul_one]
  · rfl
  · have : yi - ai * lam = 0 := le_antisymm (not_lt.mp hb) h0
    rw [this, mul_zero]

theorem slopeTerm_of_lower {yi ai lam : ℚ} (h : yi - ai * lam ≤ 0) :
    slopeTerm yi ai lam = 0 := by
  unfold slopeTerm
  rw [if_neg (by linarith), if_neg (not_lt.mpr h)]

theorem slopeTerm_affine (yi ai : ℚ) (hai : 0 < ai) {u v w : ℚ}
    (hu : u ≤ w) (hv : w ≤ v)
    (hp : v ≤ (yi - 1) / ai ∨ (yi - 1) / ai ≤ u)
    (hq : v ≤ yi / ai ∨ yi / ai ≤ u) :
    slopeTerm yi ai w * (v - u) =
      slopeTerm yi ai u * (v - w) + slopeTerm yi ai v * (w - u) := by
  have hpq : (yi - 1) / ai < yi / ai := by
    apply div_lt_div_of_pos_right _ hai
    linarith
  rcases hp with hp | hp
  · -- all of u, w, v below the upper break point: constant ai
    have hb : ∀ z : ℚ, z ≤ (yi - 1) / ai → 1 ≤ yi - ai * z := by
      intro z hz
      have := (le_div_iff₀ hai).mp hz
      linarith [mul_comm z ai]
    rw [slopeTerm_of_upper (hb u (by linarith)),
        slopeTerm_of_upper (hb w (by linarith)),
        slopeTerm_of_upper (hb v hp)]
    ring
  · rcases hq with hq | hq
    · -- middle region: affine ai * (yi - ai * z)
      have hb : ∀ z : ℚ, (yi - 1) / ai ≤ z → z ≤ yi / ai →
          slopeTerm yi ai z = ai * (yi - ai * z) := by
        intro z hz1 hz2
        refine slopeTerm_of_mid ?_ ?_
        · have := (le_div_iff₀ hai).mp hz2
          linarith [mul_comm z ai]
        · have := (div_le_iff₀ hai).mp hz1
          linarith [mul_comm z ai]
      rw [hb u hp (by linarith), hb w (by linarith) (by linarith), hb v (by linarith) hq]
      ring
    · -- all of u, w, v above the lower break point: constant 0
      have hb : ∀ z : ℚ, yi / ai ≤ z → yi - ai * z ≤ 0 := by
        intro z hz
        have := (div_le_iff₀ hai).mp hz
        linarith [mul_comm z ai]
      rw [slopeTerm_of_lower (hb u hq),
          slopeTerm_of_lower (hb w (by linarith)),
          slopeTerm_of_lower (hb v (by linarith))]
      ring

theorem bp_upper_mem (y a : Nat → ℚ) {n k : ℕ} (hk : k < n) :
    (y k - 1) / a k ∈ napBreakPoints y a n := by
  unfold napBreakPoints
  exact List.mem_append_left _ (List.mem_map_of_mem _ (List.mem_range.mpr hk))

theorem bp_lower_mem (y a : Nat → ℚ) {n k : ℕ} (hk : k < n) :
    y k / a k ∈ napBreakPoints y a n := by
  unfold napBreakPoints
  exact List.mem_append_right _ (List.mem_map_of_mem _ (List.mem_range.mpr hk))

theorem slope_affine (y a : Nat → ℚ) (n : ℕ) (ha : ∀ i < n, 0 < a i)
    {u v w : ℚ} (hu : u ≤ w) (hv : w ≤ v)
    (hB : ∀ b ∈ napBreakPoints y a n, b ≤ u ∨ v ≤ b) :
    slope y a n w * (v - u) =
      slope y a n u * (v - w) + slope y a n v * (w - u) := by
  unfold slope
  rw [Finset.sum_mul, Finset.sum_mul, Finset.sum_mul, ← Finset.sum_add_distrib]
  refine Finset.sum_congr rfl fun k hk => ?_
  have hk' := Finset.mem_range.mp hk
  refine slopeTerm_affine (y k) (a k) (ha k hk') hu hv ?_ ?_
  · rcases hB _ (bp_upper_mem y a hk') with h | h
    · exact Or.inr h
    · exact Or.inl h
  · rcases hB _ (bp_lower_mem y a hk') with h | h
    · exact Or.inr h
    · exact Or.inl h

/-! Correctness of the segment solver in both orientations. -/

theorem segSolve_spec_up (f : ℚ → ℚ) {u v t : ℚ} (huv : u ≤ v)
    (haff : ∀ w, u ≤ w → w ≤ v → f w * (v - u) = f u * (v - w) + f v * (w - u))
    (h1 : t ≤ f u) (h2 : f v ≤ t) :
    f (segSolve f u v t) = t ∧ u ≤ segSolve f u v t ∧ segSolve f u v t ≤ v := by
  unfold segSolve
  split_ifs with he
  · have h3 : f u ≤ t := he ▸ h2
    exact ⟨le_antisymm h3 h1, le_refl u, huv⟩
  · have hlt : u < v := lt_of_le_of_ne huv (fun h => he (by rw [h]))
    have hdlt : f v - f u < 0 := by
      rcases lt_or_eq_of_le (le_trans h2 h1) with h | h
      · linarith
      · exact absurd h he
    have hdne : f v - f u ≠ 0 := ne_of_lt hdlt
    set c := (t - f u) * (v - u) / (f v - f u) with hc
    have hc0 : 0 ≤ c := by
      rw [hc, le_div_iff_of_neg hdlt, zero_mul]
      nlinarith
    have hc1 : c ≤ v - u := by
      rw [hc, div_le_iff_of_neg hdlt]
      nlinarith
    have hw1 : u ≤ u + c := by linarith
    have hw2 : u + c ≤ v := by linarith
    have hmul : c * (f v - f u) = (t - f u) * (v - u) := div_mul_cancel₀ _ hdne
    have hid := haff (u + c) hw1 hw2
    have hkey : f (u + c) * (v - u) = t * (v - u) := by
      linear_combination hid + hmul
    have hfin : f (u + c) = t :=
      mul_right_cancel₀ (by linarith : v - u ≠ 0) hkey
    exact ⟨hfin, hw1, hw2⟩

theorem segSolve_spec_down (f : ℚ → ℚ) {u v t : ℚ} (hvu : v ≤ u)
    (haff : ∀ w, v ≤ w → w ≤ u → f w * (u - v) = f v * (u - w) + f u * (w - v))
    (h1 : f u ≤ t) (h2 : t ≤ f v) :
    f (segSolve f u v t) = t ∧ v ≤ segSolve f u v t ∧ segSolve f u v t ≤ u := by
  unfold segSolve
  split_ifs with he
  · have h3 : t ≤ f u := he ▸ h2
    exact ⟨le_antisymm h1 h3, hvu, le_refl u⟩
  · have hlt : v < u := lt_of_le_of_ne hvu (fun h => he (by rw [h]))
    have hdgt : 0 < f v - f u := by
      rcases lt_or_eq_of_le (le_trans h1 h2) with h | h
      · linarith
      · exact absurd h.symm he
    have hdne : f v - f u ≠ 0 := ne_of_gt hdgt
    set c := (t - f u) * (v - u) / (f v - f u) with hc
    have hc0 : c ≤ 0 := by
      rw [hc, div_le_iff₀ hdgt, zero_mul]
      nlinarith
    have hc1 : v - u ≤ c := by
      rw [hc, le_div_iff₀ hdgt]
      nlinarith
    have hw1 : v ≤ u + c := by linarith
    have hw2 : u + c ≤ u := by linarith
    have hmul : c * (f v - f u) = (t - f u) * (v - u) := div_mul_cancel₀ _ hdne
    have hid := haff (u + c) hw1 hw2
    have hkey : f (u + c) * (u - v) = t * (u - v) := by
      linear_combination hid - hmul
    have hfin : f (u + c) = t :=
      mul_right_cancel₀ (by linarith : u - v ≠ 0) hkey
    exact ⟨hfin, hw1, hw2⟩

/-! The last element of a sorted list bounds its members. -/

theorem sorted_le_getLast {l : List ℚ} (h : l.Sorted (· ≤ ·)) (hne : l ≠ []) :
    ∀ x ∈ l, x ≤ l.getLast hne := by
  induction l with
  | nil => exact absurd rfl hne
  | cons a l ih =>
    intro x hx
    cases l with
    | nil =>
      rcases List.mem_singleton.mp hx with h'
      simp [h', List.getLast]
    | cons b l' =>
      rw [List.getLast_cons (List.cons_ne_nil b l')]
      rcases List.mem_cons.mp hx with h' | h'
      · subst h'
        exact le_trans
          ((List.sorted_cons.mp h).1 _ (List.getLast_mem (List.cons_ne_nil b l')))
          (le_refl _)
      · exact ih (List.sorted_cons.mp h).2 (List.cons_ne_nil b l') x h'

theorem sorted_getLast_le {l : List ℚ} (h : l.Sorted (· ≥ ·)) (hne : l ≠ []) :
    ∀ x ∈ l, l.getLast hne ≤ x := by
  induction l with
  | nil => exact absurd rfl hne
  | cons a l ih =>
    intro x hx
    cases l with
    | nil =>
      rcases List.mem_singleton.mp hx with h'
      simp [h', List.getLast]
    | cons b l' =>
      rw [List.getLast_cons (List.cons_ne_nil b l')]
      rcases List.mem_cons.mp hx with h' | h'
      · subst h'
        exact ih (List.sorted_cons.mp h).2 (List.cons_ne_nil b l') _
          (List.getLast_mem (List.cons_ne_nil b l')) |>.trans
          ((List.sorted_cons.mp h).1 _ (List.getLast_mem (List.cons_ne_nil b l')))
      · exact ih (List.sorted_cons.mp h).2 (List.cons_ne_nil b l') x h'

/-! Correctness of the two monotone walks. -/

theorem napWalkUp_spec (f : ℚ → ℚ) (B : List ℚ) (t : ℚ)
    (haff : ∀ u v w : ℚ, u ≤ w → w ≤ v → (∀ b ∈ B, b ≤ u ∨ v ≤ b) →
      f w * (v - u) = f u * (v - w) + f v * (w - u)) :
    ∀ (cs : List ℚ) (u : ℚ), cs.Sorted (· ≤ ·) → (∀ c ∈ cs, u ≤ c) →
    (∀ b ∈ B, u < b → b ∈ cs) → t ≤ f u →
    f ((u :: cs).getLast (List.cons_ne_nil u cs)) ≤ t →
    f (napWalkUp f t u cs) = t ∧ u ≤ napWalkUp f t u cs := by
  intro cs
  induction cs with
  | nil =>
    intro u _ _ _ h1 h2
    simp only [List.getLast_singleton] at h2
    exact ⟨le_antisymm h2 h1, le_refl u⟩
  | cons c cs ih =>
    intro u hsort hall hcov h1 h2
    unfold napWalkUp
    have huc : u ≤ c := hall c (List.mem_cons_self c cs)
    split_ifs with hfc
    · have haff' : ∀ w, u ≤ w → w ≤ c →
          f w * (c - u) = f u * (c - w) + f c * (w - u) := by
        intro w hw1 hw2
        refine haff u c w hw1 hw2 fun b hb => ?_
        by_cases hub : u < b
        · rcases List.mem_cons.mp (hcov b hb hub) with h' | h'
          · exact Or.inr (le_of_eq h'.symm)
          · exact Or.inr ((List.sorted_cons.mp hsort).1 b h')
        · exact Or.inl (not_lt.mp hub)
      have hs := segSolve_spec_up f huc haff' h1 (le_of_lt hfc)
      exact ⟨hs.1, hs.2.1⟩
    · have hrec := ih c (List.sorted_cons.mp hsort).2
        (fun c' hc' => (List.sorted_cons.mp hsort).1 c' hc')
        (fun b hb hcb => by
          rcases List.mem_cons.mp (hcov b hb (lt_of_le_of_lt huc hcb)) with h' | h'
          · exact absurd (h' ▸ hcb) (lt_irrefl c)
          · exact h')
        (not_lt.mp hfc)
        (by rwa [List.getLast_cons (List.cons_ne_nil c cs)] at h2)
      exact ⟨hrec.1, le_trans huc hrec.2⟩

theorem napWalkDown_spec (f : ℚ → ℚ) (B : List ℚ) (t : ℚ)
    (haff : ∀ u v w : ℚ, u ≤ w → w ≤ v → (∀ b ∈ B, b ≤ u ∨ v ≤ b) →
      f w * (v - u) = f u * (v - w) + f v * (w - u)) :
    ∀ (cs : List ℚ) (u : ℚ), cs.Sorted (· ≥ ·) → (∀ c ∈ cs, c ≤ u) →
    (∀ b ∈ B, b < u → b ∈ cs) → f u ≤ t →
    t ≤ f ((u :: cs).getLast (List.cons_ne_nil u cs)) →
    f (napWalkDown f t u cs) = t ∧ napWalkDown f t u cs ≤ u := by
  intro cs
  induction cs with
  | nil =>
    intro u _ _ _ h1 h2
    simp only [List.getLast_singleton] at h2
    exact ⟨le_antisymm h1 h2, le_refl u⟩
  | cons c cs ih =>
    intro u hsort hall hcov h1 h2
    unfold napWalkDown
    have huc : c ≤ u := hall c (List.mem_cons_self c cs)
    split_ifs with hfc
    · have haff' : ∀ w, c ≤ w → w ≤ u →
          f w * (u - c) = f c * (u - w) + f u * (w - c) := by
        intro w hw1 hw2
        refine haff c u w hw1 hw2 fun b hb => ?_
        by_cases hub : b < u
        · rcases List.mem_cons.mp (hcov b hb hub) with h' | h'
          · exact Or.inl (le_of_eq h')
          · exact Or.inl ((List.sorted_cons.mp hsort).1 b h')
        · exact Or.inr (not_lt.mp hub)
      have hs := segSolve_spec_down f huc haff' h1 (le_of_lt hfc)
      exact ⟨hs.1, hs.2.2⟩
    · have hrec := ih c (List.sorted_cons.mp hsort).2
        (fun c' hc' => (List.sorted_cons.mp hsort).1 c' hc')
        (fun b hb hcb => by
          rcases List.mem_cons.mp (hcov b hb (lt_of_lt_of_le hcb huc)) with h' | h'
          · exact absurd (h' ▸ hcb) (lt_irrefl c)
          · exact h')
        (not_lt.mp hfc)
        (by rwa [List.getLast_cons (List.cons_ne_nil c cs)] at h2)
      exact ⟨hrec.1, le_trans hrec.2 huc⟩

/-! Specifications of the modelled QPnapup and QPnapdown. -/

theorem napup_endpoint (y a : Nat → ℚ) (n : ℕ) (lam0 t : ℚ)
    (ha : ∀ i < n, 0 < a i) (h2 : 0 ≤ t) :
    slope y a n ((lam0 ::
      ((napBreakPoints y a n).filter fun b => lam0 < b).insertionSort
        (· ≤ ·)).getLast (List.cons_ne_nil _ _)) ≤ t := by
  cases hcse : ((napBreakPoints y a n).filter fun b => lam0 < b).insertionSort
      (· ≤ ·) with
  | nil =>
    simp only [List.getLast_singleton]
    have hnone : ∀ b ∈ napBreakPoints y a n, ¬ lam0 < b := by
      intro b hb hlt
      have : b ∈ ((napBreakPoints y a n).filter fun b => lam0 < b) :=
        List.mem_filter.mpr ⟨hb, by simpa using hlt⟩
      rw [← (List.perm_insertionSort (· ≤ ·) _).mem_iff, hcse] at this
      exact absurd this (List.not_mem_nil b)
    have hz : slope y a n lam0 = 0 := by
      refine slope_eq_zero y a n lam0 ha fun i hi => ?_
      exact not_lt.mp (hnone _ (bp_lower_mem y a hi))
    rw [hz]; exact h2
  | cons c cs' =>
    rw [List.getLast_cons (List.cons_ne_nil c cs')]
    have hLmem : (c :: cs').getLast (List.cons_ne_nil c cs') ∈ c :: cs' :=
      List.getLast_mem _
    have hperm : (c :: cs').Perm ((napBreakPoints y a n).filter
        fun b => lam0 < b) := by
      rw [← hcse]; exact List.perm_insertionSort (· ≤ ·) _
    have hLfil : (c :: cs').getLast (List.cons_ne_nil c cs') ∈
        (napBreakPoints y a n).filter fun b => lam0 < b :=
      hperm.mem_iff.mp hLmem
    have hLlt : lam0 < (c :: cs').getLast (List.cons_ne_nil c cs') := by
      have := (List.mem_filter.mp hLfil).2
      simpa using this
    have hsorted : (c :: cs').Sorted (· ≤ ·) :=
      hcse ▸ List.sorted_insertionSort (· ≤ ·) _
    have hz : slope y a n ((c :: cs').getLast (List.cons_ne_nil c cs')) = 0 := by
      refine slope_eq_zero y a n _ ha fun i hi => ?_
      by_cases hq : lam0 < y i / a i
      · have hmem : y i / a i ∈ c :: cs' := hperm.mem_iff.mpr
          (List.mem_filter.mpr ⟨bp_lower_mem y a hi, by simpa using hq⟩)
        exact sorted_le_getLast hsorted (List.cons_ne_nil c cs') _ hmem
      · exact le_trans (not_lt.mp hq) (le_of_lt hLlt)
    rw [hz]; exact h2

theorem napdown_endpoint (y a : Nat → ℚ) (n : ℕ) (lam0 t : ℚ)
    (ha : ∀ i < n, 0 < a i) (h2 : t ≤ ∑ k ∈ Finset.range n, a k) :
    t ≤ slope y a n ((lam0 ::
      ((napBreakPoints y a n).filter fun b => b < lam0).insertionSort
        (· ≥ ·)).getLast (List.cons_ne_nil _ _)) := by
  cases hcse : ((napBreakPoints y a n).filter fun b => b < lam0).insertionSort
      (· ≥ ·) with
  | nil =>
    simp only [List.getLast_singleton]
    have hnone : ∀ b ∈ napBreakPoints y a n, ¬ b < lam0 := by
      intro b hb hlt
      have : b ∈ ((napBreakPoints y a n).filter fun b => b < lam0) :=
        List.mem_filter.mpr ⟨hb, by simpa using hlt⟩
      rw [← (List.perm_insertionSort (· ≥ ·) _).mem_iff, hcse] at this
      exact absurd this (List.not_mem_nil b)
    have hz : slope y a n lam0 = ∑ k ∈ Finset.range n, a k := by
      refine slope_eq_total y a n lam0 ha fun i hi => ?_
      exact not_lt.mp (hnone _ (bp_upper_mem y a hi))
    rw [hz]; exact h2
  | cons c cs' =>
    rw [List.getLast_cons (List.cons_ne_nil c cs')]
    have hLmem : (c :: cs').getLast (List.cons_ne_nil c cs') ∈ c :: cs' :=
      List.getLast_mem _
    have hperm : (c :: cs').Perm ((napBreakPoints y a n).filter
        fun b => b < lam0) := by
      rw [← hcse]; exact List.perm_insertionSort (· ≥ ·) _
    have hLfil : (c :: cs').getLast (List.cons_ne_nil c cs') ∈
        (napBreakPoints y a n).filter fun b => b < lam0 :=
      hperm.mem_iff.mp hLmem
    have hLlt : (c :: cs').getLast (List.cons_ne_nil c cs') < lam0 := by
      have := (List.mem_filter.mp hLfil).2
      simpa using this
    have hsorted : (c :: cs').Sorted (· ≥ ·) :=
      hcse ▸ List.sorted_insertionSort (· ≥ ·) _
    have hz : slope y a n ((c :: cs').getLast (List.cons_ne_nil c cs')) =
        ∑ k ∈ Finset.range n, a k := by
      refine slope_eq_total y a n _ ha fun i hi => ?_
      by_cases hq : (y i - 1) / a i < lam0
      · have hmem : (y i - 1) / a i ∈ c :: cs' := hperm.mem_iff.mpr
          (List.mem_filter.mpr ⟨bp_upper_mem y a hi, by simpa using hq⟩)
        exact sorted_getLast_le hsorted (List.cons_ne_nil c cs') _ hmem
      · exact le_trans (le_of_lt hLlt) (not_lt.mp hq)
    rw [hz]; exact h2

theorem QPnapup_spec (y a : Nat → ℚ) (n : ℕ) (lam0 t : ℚ)
    (ha : ∀ i < n, 0 < a i) (h1 : t ≤ slope y a n lam0) (h2 : 0 ≤ t) :
    slope y a n (QPnapup y a n lam0 t) = t ∧ lam0 ≤ QPnapup y a n lam0 t := by
  unfold QPnapup
  refine napWalkUp_spec _ (napBreakPoints y a n) t
    (fun u v w hu hv hBb => slope_affine y a n ha hu hv hBb) _ lam0
    (List.sorted_insertionSort (· ≤ ·) _) ?_ ?_ h1
    (napup_endpoint y a n lam0 t ha h2)
  · intro c hc
    have := (List.mem_filter.mp
      (((List.perm_insertionSort (· ≤ ·) _).mem_iff).mp hc)).2
    exact le_of_lt (by simpa using this)
  · intro b hb hlb
    rw [(List.perm_insertionSort (· ≤ ·) _).mem_iff]
    exact List.mem_filter.mpr ⟨hb, by simpa using hlb⟩

theorem QPnapdown_spec (y a : Nat → ℚ) (n : ℕ) (lam0 t : ℚ)
    (ha : ∀ i < n, 0 < a i) (h1 : slope y a n lam0 ≤ t)
    (h2 : t ≤ ∑ k ∈ Finset.range n, a k) :
    slope y a n (QPnapdown y a n lam0 t) = t ∧
      QPnapdown y a n lam0 t ≤ lam0 := by
  unfold QPnapdown
  refine napWalkDown_spec _ (napBreakPoints y a n) t
    (fun u v w hu hv hBb => slope_affine y a n ha hu hv hBb) _ lam0
    (List.sorted_insertionSort (· ≥ ·) _) ?_ ?_ h1
    (napdown_endpoint y a n lam0 t ha h2)
  · intro c hc
    have := (List.mem_filter.mp
      (((List.perm_insertionSort (· ≥ ·) _).mem_iff).mp hc)).2
    exact le_of_lt (by simpa using this)
  · intro b hb hlb
    rw [(List.perm_insertionSort (· ≥ ·) _).mem_iff]
    exact List.mem_filter.mpr ⟨hb, by simpa using hlb⟩

/-! Classification of the returned lambda, following the case analysis of
the source. -/

theorem napDispatch_classify (y Gw : Nat → ℚ) (n : ℕ) (lo hi lambda1 : ℚ)
    (ha : ∀ i < n, 0 < Gw i) (hhi : 0 ≤ hi)
    (hlo : lo ≤ ∑ k ∈ Finset.range n, Gw k) (hlohi : lo ≤ hi) :
    (0 < napDispatch y n lo hi Gw lambda1 →
      slope y Gw n (napDispatch y n lo hi Gw lambda1) = hi) ∧
    (napDispatch y n lo hi Gw lambda1 < 0 →
      slope y Gw n (napDispatch y n lo hi Gw lambda1) = lo) ∧
    (napDispatch y n lo hi Gw lambda1 = 0 →
      lo ≤ slope y Gw n 0 ∧ slope y Gw n 0 ≤ hi) := by
  have ha' : ∀ i < n, 0 ≤ Gw i := fun i hi' => (ha i hi').le
  unfold napDispatch
  by_cases h1 : lambda1 ≥ 0 ∧ slope y Gw n lambda1 ≥ hi
  · rw [if_pos h1]
    by_cases h2 : slope y Gw n lambda1 > hi
    · rw [if_pos h2]
      have hw := QPnapup_spec y Gw n lambda1 hi ha h2.le hhi
      rw [max_eq_right (le_trans h1.1 hw.2)]
      refine ⟨fun _ => hw.1,
        fun hneg => absurd hneg (not_lt.mpr (le_trans h1.1 hw.2)),
        fun h0 => ?_⟩
      rw [h0] at hw
      exact ⟨by rw [hw.1]; exact hlohi, hw.1.le⟩
    · rw [if_neg h2]
      have hS : slope y Gw n lambda1 = hi := le_antisymm (not_lt.mp h2) h1.2
      refine ⟨fun _ => hS, fun hneg => absurd hneg (not_lt.mpr h1.1),
        fun h0 => ?_⟩
      rw [h0] at hS
      exact ⟨by rw [hS]; exact hlohi, hS.le⟩
  · rw [if_neg h1]
    by_cases h3 : lambda1 ≤ 0 ∧ slope y Gw n lambda1 ≤ lo
    · rw [if_pos h3]
      by_cases h4 : slope y Gw n lambda1 < lo
      · rw [if_pos h4]
        have hw := QPnapdown_spec y Gw n lambda1 lo ha h4.le hlo
        rw [min_eq_left (le_trans hw.2 h3.1)]
        refine ⟨fun hpos => absurd hpos (not_lt.mpr (le_trans hw.2 h3.1)),
          fun _ => hw.1, fun h0 => ?_⟩
        rw [h0] at hw
        exact ⟨hw.1.ge, hw.1.le.trans hlohi⟩
      · rw [if_neg h4]
        have hS : slope y Gw n lambda1 = lo := le_antisymm h3.2 (not_lt.mp h4)
        refine ⟨fun hpos => absurd hpos (not_lt.mpr h3.1), fun _ => hS,
          fun h0 => ?_⟩
        rw [h0] at hS
        exact ⟨hS.ge, hS.le.trans hlohi⟩
    · rw [if_neg h3]
      by_cases h5 : lambda1 ≠ 0
      · rw [if_pos h5]
        by_cases h6 : lambda1 ≥ 0 ∧ slope y Gw n lambda1 < hi
        · rw [if_pos h6]
          by_cases h7 : slope y Gw n 0 < lo
          · rw [if_pos h7]
            have hw := QPnapdown_spec y Gw n 0 lo ha h7.le hlo
            by_cases h8 : QPnapdown y Gw n 0 lo > 0
            · rw [if_pos h8]
              exact absurd h8 (not_lt.mpr hw.2)
            · rw [if_neg h8]
              refine ⟨fun hpos => absurd hpos h8, fun _ => hw.1,
                fun h0 => ?_⟩
              rw [h0] at hw
              exact absurd h7 (not_lt.mpr hw.1.ge)
          · rw [if_neg h7]
            by_cases h9 : slope y Gw n 0 > hi
            · rw [if_pos h9]
              have hhiA : hi ≤ ∑ k ∈ Finset.range n, Gw k :=
                le_trans h9.le (slope_le_sum y Gw n 0 ha')
              have hw := QPnapdown_spec y Gw n lambda1 hi ha h6.2.le hhiA
              by_cases h10 : QPnapdown y Gw n lambda1 hi < 0
              · rw [if_pos h10]
                exfalso
                have hmono := slope_anti y Gw n ha' h10.le
                rw [hw.1] at hmono
                exact absurd h9 (not_lt.mpr hmono)
              · rw [if_neg h10]
                refine ⟨fun _ => hw.1, fun hneg => absurd hneg h10,
                  fun h0 => ?_⟩
                rw [h0] at hw
                exact absurd h9 (not_lt.mpr hw.1.le)
            · rw [if_neg h9]
              exact ⟨fun hpos => absurd hpos (lt_irrefl 0),
                fun hneg => absurd hneg (lt_irrefl 0),
                fun _ => ⟨not_lt.mp h7, not_lt.mp h9⟩⟩
        · rw [if_neg h6]
          have hneg1 : lambda1 < 0 := by
            rcases lt_or_ge lambda1 0 with h | h
            · exact h
            · exfalso
              rcases not_and_or.mp h6 with h' | h'
              · exact h' h
              · exact h1 ⟨h, not_lt.mp h'⟩
          have hSgt : lo < slope y Gw n lambda1 := by
            rcases not_and_or.mp h3 with h' | h'
            · exact absurd hneg1.le h'
            · exact not_le.mp h'
          by_cases h11 : slope y Gw n 0 > hi
          · rw [if_pos h11]
            have hw := QPnapup_spec y Gw n 0 hi ha h11.le hhi
            rw [max_eq_left hw.2]
            refine ⟨fun _ => hw.1,
              fun hneg2 => absurd hneg2 (not_lt.mpr hw.2), fun h0 => ?_⟩
            rw [h0] at hw
            exact absurd h11 (not_lt.mpr hw.1.le)
          · rw [if_neg h11]
            by_cases h12 : slope y Gw n 0 < lo
            · rw [if_pos h12]
              have hlopos : 0 ≤ lo :=
                le_trans (slope_nonneg y Gw n 0 ha') h12.le
              have hw := QPnapup_spec y Gw n lambda1 lo ha hSgt.le hlopos
              have hwneg : QPnapup y Gw n lambda1 lo < 0 := by
                by_contra hcon
                push_neg at hcon
                have hmono := slope_anti y Gw n ha' hcon
                rw [hw.1] at hmono
                exact absurd h12 (not_lt.mpr hmono)
              rw [min_eq_right hwneg.le]
              exact ⟨fun hpos => absurd hpos (not_lt.mpr hwneg.le),
                fun _ => hw.1,
                fun h0 => absurd (h0 ▸ hwneg) (lt_irrefl 0)⟩
            · rw [if_neg h12]
              exact ⟨fun hpos => absurd hpos (lt_irrefl 0),
                fun hneg2 => absurd hneg2 (lt_irrefl 0),
                fun _ => ⟨not_lt.mp h12, not_lt.mp h11⟩⟩
      · rw [if_neg h5]
        have hz : lambda1 = 0 := not_not.mp h5
        subst hz
        have hlt : slope y Gw n 0 < hi := by
          rcases not_and_or.mp h1 with h' | h'
          · exact absurd (le_refl 0) h'
          · exact not_le.mp h'
        have hgt : lo < slope y Gw n 0 := by
          rcases not_and_or.mp h3 with h' | h'
          · exact absurd (le_refl 0) h'
          · exact not_le.mp h'
        rw [if_pos hlt, if_neg (not_lt.mpr hgt.le)]
        exact ⟨fun hpos => absurd hpos (lt_irrefl 0),
          fun hneg2 => absurd hneg2 (lt_irrefl 0),
          fun _ => ⟨hgt.le, hlt.le⟩⟩

/-! Bridge lemmas between QPnapsack and its pieces. -/

theorem QPnapsack_snd (y : Nat → ℚ) (n : ℕ) (lo hi : ℚ) (Gw : Nat → ℚ)
    (Lambda : ℚ) (fs : Option (Nat → Int)) :
    (QPnapsack y n lo hi Gw Lambda fs).2 =
      napDispatch y n lo hi Gw (napLambda1 y Gw n lo hi Lambda fs) := rfl

theorem QPnapsack_fst (y : Nat → ℚ) (n : ℕ) (lo hi : ℚ) (Gw : Nat → ℚ)
    (Lambda : ℚ) (fs : Option (Nat → Int)) (k : ℕ) :
    (QPnapsack y n lo hi Gw Lambda fs).1 k =
      clip01 (y k - Gw k * (QPnapsack y n lo hi Gw Lambda fs).2) := by
  unfold QPnapsack
  dsimp only
  split_ifs with h
  · rw [h, mul_zero, sub_zero]
  · rfl

theorem QPnapsack_fst_eq (y : Nat → ℚ) (n : ℕ) (lo hi : ℚ) (Gw : Nat → ℚ)
    (Lambda : ℚ) (fs : Option (Nat → Int)) :
    (QPnapsack y n lo hi Gw Lambda fs).1 =
      fun k => clip01 (y k - Gw k * (QPnapsack y n lo hi Gw Lambda fs).2) :=
  funext (QPnapsack_fst y n lo hi Gw Lambda fs)

theorem dot_clip_eq_sOf (y Gw : Nat → ℚ) (n : ℕ) (lam : ℚ) :
    dotRange Gw (fun k => clip01 (y k - Gw k * lam)) n = sOf y Gw n lam := by
  unfold dotRange sOf
  exact Finset.sum_congr rfl fun k _ => rfl

/-! The Karush-Kuhn-Tucker argument: the clipped point together with the
sign conditions on lambda minimizes the distance over the feasible set. -/

theorem kkt_pointwise (yk ak lam zk : ℚ) (hz0 : 0 ≤ zk) (hz1 : zk ≤ 1) :
    -(lam * ak) * (zk - clip01 (yk - ak * lam)) ≤
      (clip01 (yk - ak * lam) - yk) * (zk - clip01 (yk - ak * lam)) := by
  unfold clip01
  split_ifs with hneg hbig
  · have key : 0 ≤ (ak * lam - yk) * zk :=
      mul_nonneg (by linarith) hz0
    nlinarith [key]
  · have key : ((-(ak * lam)) - (1 - yk)) * (zk - 1) ≤ 0 :=
      mul_nonpos_of_nonneg_of_nonpos (by linarith) (by linarith)
    nlinarith [key]
  · have heq : yk - ak * lam - yk = -(lam * ak) := by ring
    rw [heq]

theorem napsack_kkt (y Gw z : Nat → ℚ) (n : ℕ) (lo hi lam : ℚ)
    (hz : napFeasible Gw n lo hi z)
    (hpos : 0 < lam → sOf y Gw n lam = hi)
    (hneg : lam < 0 → sOf y Gw n lam = lo) :
    sqDist (fun k => clip01 (y k - Gw k * lam)) y n ≤ sqDist z y n := by
  set x : Nat → ℚ := fun k => clip01 (y k - Gw k * lam) with hxdef
  have hpoint : ∀ k ∈ Finset.range n,
      2 * (-(lam * Gw k) * (z k - x k)) ≤
        (z k - y k) ^ 2 - (x k - y k) ^ 2 := by
    intro k hk
    have hk' := Finset.mem_range.mp hk
    have hp := kkt_pointwise (y k) (Gw k) lam (z k)
      (hz.1 k hk').1 (hz.1 k hk').2
    have hx : x k = clip01 (y k - Gw k * lam) := rfl
    rw [hx]
    nlinarith [hp, sq_nonneg (z k - clip01 (y k - Gw k * lam))]
  have hsum := Finset.sum_le_sum hpoint
  have hL : ∑ k ∈ Finset.range n, 2 * (-(lam * Gw k) * (z k - x k)) =
      (-2 * lam) * (dotRange Gw z n - dotRange Gw x n) := by
    unfold dotRange
    rw [mul_sub, Finset.mul_sum, Finset.mul_sum, ← Finset.sum_sub_distrib]
    exact Finset.sum_congr rfl fun k _ => by ring
  have hR : ∑ k ∈ Finset.range n, ((z k - y k) ^ 2 - (x k - y k) ^ 2) =
      sqDist z y n - sqDist x y n := by
    unfold sqDist
    rw [← Finset.sum_sub_distrib]
  have hdotx : dotRange Gw x n = sOf y Gw n lam := dot_clip_eq_sOf y Gw n lam
  have hfin : 0 ≤ (-2 * lam) * (dotRange Gw z n - dotRange Gw x n) := by
    rcases lt_trichotomy lam 0 with h | h | h
    · rw [hdotx, hneg h]
      have := hz.2.1
      nlinarith
    · rw [h]; ring_nf; exact le_refl 0
    · rw [hdotx, hpos h]
      have := hz.2.2
      nlinarith
  rw [hL, hR] at hsum
  linarith

/-! Consequences of a nonempty feasible set. -/

theorem napsack_hyps_of_feasible (Gw : Nat → ℚ) (n : ℕ) (lo hi : ℚ)
    (ha : ∀ k < n, 1 ≤ Gw k) (hfeas : ∃ z, napFeasible Gw n lo hi z) :
    0 ≤ hi ∧ lo ≤ ∑ k ∈ Finset.range n, Gw k := by
  obtain ⟨z, hz⟩ := hfeas
  have h1 : 0 ≤ dotRange Gw z n := by
    unfold dotRange
    refine Finset.sum_nonneg fun k hk => ?_
    have hk' := Finset.mem_range.mp hk
    exact mul_nonneg (le_trans zero_le_one (ha k hk')) (hz.1 k hk').1
  have h2 : dotRange Gw z n ≤ ∑ k ∈ Finset.range n, Gw k := by
    unfold dotRange
    refine Finset.sum_le_sum fun k hk => ?_
    have hk' := Finset.mem_range.mp hk
    calc Gw k * z k ≤ Gw k * 1 := mul_le_mul_of_nonneg_left (hz.1 k hk').2
          (le_trans zero_le_one (ha k hk'))
      _ = Gw k := mul_one _
  exact ⟨le_trans h1 hz.2.2, le_trans hz.2.1 h2⟩

theorem QPnapsack_lambda_cases (y Gw : Nat → ℚ) (n : ℕ) (lo hi Lambda : ℚ)
    (fs : Option (Nat → Int)) (ha : ∀ k < n, 1 ≤ Gw k) (hlohi : lo ≤ hi)
    (hfeas : ∃ z, napFeasible Gw n lo hi z) :
    (0 < (QPnapsack y n lo hi Gw Lambda fs).2 →
      sOf y Gw n (QPnapsack y n lo hi Gw Lambda fs).2 = hi) ∧
    ((QPnapsack y n lo hi Gw Lambda fs).2 < 0 →
      sOf y Gw n (QPnapsack y n lo hi Gw Lambda fs).2 = lo) ∧
    ((QPnapsack y n lo hi Gw Lambda fs).2 = 0 →
      lo ≤ sOf y Gw n 0 ∧ sOf y Gw n 0 ≤ hi) := by
  have hapos : ∀ k < n, 0 < Gw k := fun k hk =>
    lt_of_lt_of_le one_pos (ha k hk)
  obtain ⟨hhi, hlo⟩ := napsack_hyps_of_feasible Gw n lo hi ha hfeas
  have hc := napDispatch_classify y Gw n lo hi
    (napLambda1 y Gw n lo hi Lambda fs) hapos hhi hlo hlohi
  rw [← QPnapsack_snd y n lo hi Gw Lambda fs] at hc
  simpa only [slope_eq_sOf] using hc

theorem QPnapsack_dot_mem (y Gw : Nat → ℚ) (n : ℕ) (lo hi Lambda : ℚ)
    (fs : Option (Nat → Int)) (ha : ∀ k < n, 1 ≤ Gw k) (hlohi : lo ≤ hi)
    (hfeas : ∃ z, napFeasible Gw n lo hi z) :
    lo ≤ dotRange Gw (QPnapsack y n lo hi Gw Lambda fs).1 n ∧
    dotRange Gw (QPnapsack y n lo hi Gw Lambda fs).1 n ≤ hi := by
  have hcls := QPnapsack_lambda_cases y Gw n lo hi Lambda fs ha hlohi hfeas
  have hdot : dotRange Gw (QPnapsack y n lo hi Gw Lambda fs).1 n =
      sOf y Gw n (QPnapsack y n lo hi Gw Lambda fs).2 := by
    rw [QPnapsack_fst_eq y n lo hi Gw Lambda fs]
    exact dot_clip_eq_sOf y Gw n _
  rw [hdot]
  rcases lt_trichotomy (QPnapsack y n lo hi Gw Lambda fs).2 0 with h | h | h
  · rw [hcls.2.1 h]
    exact ⟨le_refl lo, hlohi⟩
  · rw [h]
    exact (hcls.2.2 h)
  · rw [hcls.1 h]
    exact ⟨hlohi, le_refl hi⟩

theorem napDispatch_zero (y Gw : Nat → ℚ) (n : ℕ) (lo hi : ℚ)
    (hlo0 : lo ≤ slope y Gw n 0) (hhi0 : slope y Gw n 0 ≤ hi) :
    napDispatch y n lo hi Gw 0 = 0 := by
  unfold napDispatch
  by_cases h1 : (0:ℚ) ≥ 0 ∧ slope y Gw n 0 ≥ hi
  · rw [if_pos h1, if_neg (not_lt.mpr hhi0)]
  · rw [if_neg h1]
    by_cases h3 : (0:ℚ) ≤ 0 ∧ slope y Gw n 0 ≤ lo
    · rw [if_pos h3, if_neg (not_lt.mpr hlo0)]
    · rw [if_neg h3, if_neg (by simp : ¬((0:ℚ) ≠ 0))]
      by_cases h13 : slope y Gw n 0 < hi
      · rw [if_pos h13, if_neg (not_lt.mpr hlo0)]
      · rw [if_neg h13, if_neg (not_lt.mpr hhi0)]

/-- C1: for weights at least one, bounds lo <= hi with a nonempty feasible
set, and any initial lambda and FreeSet_status, the vector written over x
by QPnapsack lies in the feasible set and minimizes the squared distance
to the input vector over that set. -/
theorem QPnapsack_solves_projection (y Gw : Nat → ℚ) (n : ℕ)
    (lo hi Lambda : ℚ) (fs : Option (Nat → Int))
    (ha : ∀ k < n, 1 ≤ Gw k) (hlohi : lo ≤ hi)
    (hfeas : ∃ z, napFeasible Gw n lo hi z) :
    napFeasible Gw n lo hi (QPnapsack y n lo hi Gw Lambda fs).1 ∧
    ∀ z, napFeasible Gw n lo hi z →
      sqDist (QPnapsack y n lo hi Gw Lambda fs).1 y n ≤ sqDist z y n := by
  have hcls := QPnapsack_lambda_cases y Gw n lo hi Lambda fs ha hlohi hfeas
  have hmem := QPnapsack_dot_mem y Gw n lo hi Lambda fs ha hlohi hfeas
  constructor
  · refine ⟨?_, hmem.1, hmem.2⟩
    intro k _
    rw [QPnapsack_fst]
    exact ⟨clip01_nonneg _, clip01_le_one _⟩
  · intro z hz
    rw [QPnapsack_fst_eq y n lo hi Gw Lambda fs]
    exact napsack_kkt y Gw z n lo hi _ hz hcls.1 hcls.2.1

theorem QPnapsack_solves_projection_witness :
    napFeasible (fun _ => 1) 4 2 2
      (QPnapsack (fun _ => 6/10) 4 2 2 (fun _ => 1) 0 none).1 ∧
    ∀ z, napFeasible (fun _ => 1) 4 2 2 z →
      sqDist (QPnapsack (fun _ => 6/10) 4 2 2 (fun _ => 1) 0 none).1
        (fun _ => 6/10) 4 ≤ sqDist z (fun _ => 6/10) 4 :=
  QPnapsack_solves_projection (fun _ => 6/10) (fun _ => 1) 4 2 2 0 none
    (fun _ _ => le_refl 1) (le_refl 2)
    ⟨fun _ => 1/2, fun _ _ => ⟨by norm_num, by norm_num⟩,
     by norm_num [dotRange, Finset.sum_range_succ],
     by norm_num [dotRange, Finset.sum_range_succ]⟩

/-- C2 counterexample: at n = 1, y = (1/2), unit weight, lo = 10, hi = 20,
initial lambda 0 and no FreeSet_status, the weighted sum of the returned
vector is 1, strictly below lo - 1/1000, refuting the unconditional
weighted-sum bound. -/
theorem QPnapsack_atx_bound_counterexample :
    ¬(10 - 1/1000 ≤ dotRange (fun _ => 1)
        (QPnapsack (fun _ => 1/2) 1 10 20 (fun _ => 1) 0 none).1 1) := by
  norm_num [QPnapsack, napLambda1, napDispatch, Mongoose.slope, slopeTerm,
    QPnapup, QPnapdown, napWalkUp, napWalkDown, napBreakPoints, segSolve,
    dotRange, Finset.sum_range_succ, List.insertionSort, List.orderedInsert,
    clip01]

/-- C2 (amended): the componentwise clip identity holds for every input;
under the preconditions of the spec (weights at least one, lo <= hi,
nonempty feasible set) the weighted sum of the returned vector lies within
the tolerant bounds lo - 1/1000 and hi + 1/1000. -/
theorem QPnapsack_output_spec (y Gw : Nat → ℚ) (n : ℕ)
    (lo hi Lambda : ℚ) (fs : Option (Nat → Int)) :
    (∀ k, (QPnapsack y n lo hi Gw Lambda fs).1 k =
       clip01 (y k - Gw k * (QPnapsack y n lo hi Gw Lambda fs).2)) ∧
    ((∀ k < n, 1 ≤ Gw k) → lo ≤ hi →
     (∃ z, napFeasible Gw n lo hi z) →
      lo - 1/1000 ≤ dotRange Gw (QPnapsack y n lo hi Gw Lambda fs).1 n ∧
      dotRange Gw (QPnapsack y n lo hi Gw Lambda fs).1 n ≤ hi + 1/1000) := by
  refine ⟨QPnapsack_fst y n lo hi Gw Lambda fs, fun ha hlohi hfeas => ?_⟩
  have hmem := QPnapsack_dot_mem y Gw n lo hi Lambda fs ha hlohi hfeas
  exact ⟨by linarith [hmem.1], by linarith [hmem.2]⟩

theorem QPnapsack_output_spec_witness :
    (∀ k, (QPnapsack (fun _ => 6/10) 4 2 2 (fun _ => 1) 0 none).1 k =
       clip01 ((fun _ : Nat => (6:ℚ)/10) k -
         (fun _ : Nat => (1:ℚ)) k *
           (QPnapsack (fun _ => 6/10) 4 2 2 (fun _ => 1) 0 none).2)) ∧
    2 - 1/1000 ≤ dotRange (fun _ => 1)
      (QPnapsack (fun _ => 6/10) 4 2 2 (fun _ => 1) 0 none).1 4 ∧
    dotRange (fun _ => 1)
      (QPnapsack (fun _ => 6/10) 4 2 2 (fun _ => 1) 0 none).1 4 ≤
        2 + 1/1000 :=
  ⟨(QPnapsack_output_spec (fun _ => 6/10) (fun _ => 1) 4 2 2 0 none).1,
   ((QPnapsack_output_spec (fun _ => 6/10) (fun _ => 1) 4 2 2 0 none).2
     (fun _ _ => le_refl 1) (le_refl 2)
     ⟨fun _ => 1/2, fun _ _ => ⟨by norm_num, by norm_num⟩,
      by norm_num [dotRange, Finset.sum_range_succ],
      by norm_num [dotRange, Finset.sum_range_succ]⟩).1,
   ((QPnapsack_output_spec (fun _ => 6/10) (fun _ => 1) 4 2 2 0 none).2
     (fun _ _ => le_refl 1) (le_refl 2)
     ⟨fun _ => 1/2, fun _ _ => ⟨by norm_num, by norm_num⟩,
      by norm_num [dotRange, Finset.sum_range_succ],
      by norm_num [dotRange, Finset.sum_range_succ]⟩).2⟩

/-- C3 counterexample: at n = 1, y = (0), unit weight, lo = -5, hi = 0 and
initial lambda 1, the slope at zero lies between lo and hi and yet the
returned lambda is 1, not 0: the third clause of the claim fails on a
feasible input. -/
theorem QPnapsack_lambda_root_counterexample :
    (-5 : ℚ) ≤ sOf (fun _ => 0) (fun _ => 1) 1 0 ∧
    sOf (fun _ => 0) (fun _ => 1) 1 0 ≤ 0 ∧
    (QPnapsack (fun _ => 0) 1 (-5) 0 (fun _ => 1) 1 none).2 ≠ 0 := by
  norm_num [QPnapsack, napLambda1, napDispatch, Mongoose.slope, slopeTerm,
    QPnapup, QPnapdown, napWalkUp, napWalkDown, napBreakPoints, segSolve,
    sOf, Finset.sum_range_succ, List.insertionSort, List.orderedInsert,
    clip01]

/-- C3 (amended): under the preconditions of the spec, if the returned
lambda is positive then s lambda = hi, if negative then s lambda = lo; and
when the adjusted starting lambda is zero and lo <= s 0 <= hi the returned
lambda is zero. -/
theorem QPnapsack_lambda_root_spec (y Gw : Nat → ℚ) (n : ℕ)
    (lo hi Lambda : ℚ) (fs : Option (Nat → Int))
    (ha : ∀ k < n, 1 ≤ Gw k) (hlohi : lo ≤ hi)
    (hfeas : ∃ z, napFeasible Gw n lo hi z) :
    (0 < (QPnapsack y n lo hi Gw Lambda fs).2 →
      sOf y Gw n (QPnapsack y n lo hi Gw Lambda fs).2 = hi) ∧
    ((QPnapsack y n lo hi Gw Lambda fs).2 < 0 →
      sOf y Gw n (QPnapsack y n lo hi Gw Lambda fs).2 = lo) ∧
    (napLambda1 y Gw n lo hi Lambda fs = 0 →
      lo ≤ sOf y Gw n 0 → sOf y Gw n 0 ≤ hi →
      (QPnapsack y n lo hi Gw Lambda fs).2 = 0) := by
  obtain ⟨h1, h2, _⟩ :=
    QPnapsack_lambda_cases y Gw n lo hi Lambda fs ha hlohi hfeas
  refine ⟨h1, h2, fun hz hl hh => ?_⟩
  rw [QPnapsack_snd, hz]
  exact napDispatch_zero y Gw n lo hi
    (by rwa [slope_eq_sOf]) (by rwa [slope_eq_sOf])

theorem QPnapsack_lambda_root_spec_witness :
    (0 < (QPnapsack (fun _ => 6/10) 4 2 2 (fun _ => 1) 0 none).2 →
      sOf (fun _ => 6/10) (fun _ => 1) 4
        (QPnapsack (fun _ => 6/10) 4 2 2 (fun _ => 1) 0 none).2 = 2) ∧
    ((QPnapsack (fun _ => 6/10) 4 2 2 (fun _ => 1) 0 none).2 < 0 →
      sOf (fun _ => 6/10) (fun _ => 1) 4
        (QPnapsack (fun _ => 6/10) 4 2 2 (fun _ => 1) 0 none).2 = 2) ∧
    (napLambda1 (fun _ => 6/10) (fun _ => 1) 4 2 2 0 none = 0 →
      2 ≤ sOf (fun _ => 6/10) (fun _ => 1) 4 0 →
      sOf (fun _ => 6/10) (fun _ => 1) 4 0 ≤ 2 →
      (QPnapsack (fun _ => 6/10) 4 2 2 (fun _ => 1) 0 none).2 = 0) :=
  QPnapsack_lambda_root_spec (fun _ => 6/10) (fun _ => 1) 4 2 2 0 none
    (fun _ _ => le_refl 1) (le_refl 2)
    ⟨fun _ => 1/2, fun _ _ => ⟨by norm_num, by norm_num⟩,
     by norm_num [dotRange, Finset.sum_range_succ],
     by norm_num [dotRange, Finset.sum_range_succ]⟩

/-- C4: checkatx returns true, so that its ASSERT(0) branch is not
reached, exactly when every component of x lies in the unit interval and
the weighted sum (with a missing weight vector read as all ones) lies
between lo - 1/1000 and hi + 1/1000. -/
theorem checkatx_ok_iff (x : Nat → ℚ) (a : Option (Nat → ℚ)) (n : ℕ)
    (lo hi : ℚ) :
    checkatx x a n lo hi = true ↔
      ((∀ k < n, 0 ≤ x k ∧ x k ≤ 1) ∧
       lo - 1/1000 ≤ (∑ k ∈ Finset.range n,
          (match a with | none => 1 | some av => av k) * x k) ∧
       (∑ k ∈ Finset.range n,
          (match a with | none => 1 | some av => av k) * x k) ≤
         hi + 1/1000) := by
  unfold checkatx
  simp only [Bool.and_eq_true, decide_eq_true_eq, Bool.not_eq_true',
    decide_eq_false_iff_not, not_lt]
  constructor
  · rintro ⟨⟨h1, h2⟩, h3⟩
    exact ⟨fun k hk => ⟨(h1 k hk).1, (h1 k hk).2⟩, h2, h3⟩
  · rintro ⟨h1, h2, h3⟩
    exact ⟨⟨fun k hk => ⟨(h1 k hk).1, (h1 k hk).2⟩, h2⟩, h3⟩

/-- C5: the napsack unit test of the spec: y = (0.6, 0.6, 0.6, 0.6), unit
weights, lo = hi = 2, initial lambda 0 and no FreeSet_status returns
lambda = 0.1 and the vector (0.5, 0.5, 0.5, 0.5). -/
theorem QPnapsack_unit_test :
    (QPnapsack (fun _ => 6/10) 4 2 2 (fun _ => 1) 0 none).2 = 1/10 ∧
    ∀ k < 4, (QPnapsack (fun _ => 6/10) 4 2 2 (fun _ => 1) 0 none).1 k =
      1/2 := by
  norm_num [QPnapsack, napLambda1, napDispatch, Mongoose.slope, slopeTerm,
    QPnapup, QPnapdown, napWalkUp, napWalkDown, napBreakPoints, segSolve,
    Finset.sum_range_succ, List.insertionSort, List.orderedInsert, clip01]

/-- C9: in the warm-start computation, if the accumulated a2sum is zero
the caller lambda is kept, and when no index has FreeSet_status zero the
a2sum is zero, so the division asum / a2sum is never reached. -/
theorem napLambda1_guard (y Gw : Nat → ℚ) (n : ℕ) (lo hi Lambda : ℚ)
    (fstat : Nat → Int) :
    (napA2sum Gw n fstat = 0 →
       napLambda1 y Gw n lo hi Lambda (some fstat) = Lambda) ∧
    ((∀ k < n, fstat k ≠ 0) → napA2sum Gw n fstat = 0 ∧
       napLambda1 y Gw n lo hi Lambda (some fstat) = Lambda) := by
  have hbase : napA2sum Gw n fstat = 0 →
      napLambda1 y Gw n lo hi Lambda (some fstat) = Lambda := by
    intro h
    unfold napA2sum at h
    show (if Lambda ≠ 0 then _ else Lambda) = Lambda
    by_cases hl : Lambda ≠ 0
    · rw [if_pos hl, if_neg (not_not_intro h)]
    · rw [if_neg hl]
  refine ⟨hbase, fun h => ?_⟩
  have hz : napA2sum Gw n fstat = 0 := by
    unfold napA2sum
    refine Finset.sum_eq_zero fun k hk => ?_
    rw [if_neg (h k (Finset.mem_range.mp hk))]
  exact ⟨hz, hbase hz⟩

theorem napLambda1_guard_witness :
    (∀ k < 1, (fun _ : Nat => (1 : Int)) k ≠ 0) ∧
    napA2sum (fun _ => 1) 1 (fun _ => 1) = 0 ∧
    napLambda1 (fun _ => 0) (fun _ => 1) 1 0 0 5 (some fun _ => 1) = 5 :=
  ⟨fun _ _ => one_ne_zero,
   (napLambda1_guard (fun _ => 0) (fun _ => 1) 1 0 0 5 (fun _ => 1)).2
     (fun _ _ => one_ne_zero)⟩

/-! A memory view of QPnapsack for the frame property. -/

/-- The memory handed to QPnapsack: the vector x it overwrites, the
read-only Gw and FreeSet_status arrays, and the three work arrays. -/
structure NapMem where
  x : Nat → ℚ
  Gw : Nat → ℚ
  FreeSet_status : Option (Nat → Int)
  w : Nat → ℚ
  heap1 : Nat → Int
  heap2 : Nat → Int

/-- Modelled from the spec: QPnapup and QPnapdown (bodies not among the
sources) use w, heap1 and heap2, each of length n + 1, as scratch holding
the heap of candidate break points; the model records the break-point
values and index heaps as their final contents. -/
def napScratch (m : NapMem) (n : ℕ) : NapMem :=
  { m with
    w := fun k => if k ≤ n then (napBreakPoints m.x m.Gw n).getD k 0
                  else m.w k,
    heap1 := fun k => if k ≤ n then (k : Int) else m.heap1 k,
    heap2 := fun k => if k ≤ n then (k : Int) else m.heap2 k }

/-- QPnapsack acting on its memory: the solution is written over x and
scratch over the work arrays; nothing else is written. -/
def QPnapsackMem (m : NapMem) (n : ℕ) (lo hi Lambda : ℚ) : NapMem × ℚ :=
  ({ napScratch m n with
      x := (QPnapsack m.x n lo hi m.Gw Lambda m.FreeSet_status).1 },
   (QPnapsack m.x n lo hi m.Gw Lambda m.FreeSet_status).2)

/-- C10: QPnapsack leaves FreeSet_status and Gw unchanged; the data it
writes are the vector x (the projected solution) and the scratch arrays
w, heap1, heap2; n, lo and hi are passed by value and unchanged. -/
theorem QPnapsack_frame (m : NapMem) (n : ℕ) (lo hi Lambda : ℚ) :
    (QPnapsackMem m n lo hi Lambda).1.Gw = m.Gw ∧
    (QPnapsackMem m n lo hi Lambda).1.FreeSet_status = m.FreeSet_status ∧
    (QPnapsackMem m n lo hi Lambda).1.x =
      (QPnapsack m.x n lo hi m.Gw Lambda m.FreeSet_status).1 ∧
    (QPnapsackMem m n lo hi Lambda).1.w = (napScratch m n).w ∧
    (QPnapsackMem m n lo hi Lambda).1.heap1 = (napScratch m n).heap1 ∧
    (QPnapsackMem m n lo hi Lambda).1.heap2 = (napScratch m n).heap2 ∧
    (QPnapsackMem m n lo hi Lambda).2 =
      (QPnapsack m.x n lo hi m.Gw Lambda m.FreeSet_status).2 :=
  ⟨rfl, rfl, rfl, rfl, rfl, rfl, rfl⟩

/-- C6: the returned lambda of QPnapsack is the dispatch applied to the
adjusted starting lambda, and on every search branch targeting hi (case 1
up, case 3b down, case 4a up and the up branch of the lambda = 0 case) the
dispatched lambda is clamped nonnegative, while on every branch targeting
lo (case 2 down, case 3a down, case 4b up and the down branch of the
lambda = 0 case) it is clamped nonpositive. -/
theorem QPnapsack_clamp_sign (y Gw : Nat → ℚ) (n : ℕ) (lo hi Lambda : ℚ)
    (fs : Option (Nat → Int)) (lambda1 : ℚ) :
    (QPnapsack y n lo hi Gw Lambda fs).2 =
      napDispatch y n lo hi Gw (napLambda1 y Gw n lo hi Lambda fs) ∧
    ((lambda1 ≥ 0 ∧ slope y Gw n lambda1 ≥ hi) ∧
       slope y Gw n lambda1 > hi →
      0 ≤ napDispatch y n lo hi Gw lambda1) ∧
    (¬(lambda1 ≥ 0 ∧ slope y Gw n lambda1 ≥ hi) ∧
     ¬(lambda1 ≤ 0 ∧ slope y Gw n lambda1 ≤ lo) ∧ lambda1 ≠ 0 ∧
     (lambda1 ≥ 0 ∧ slope y Gw n lambda1 < hi) ∧
     ¬(slope y Gw n 0 < lo) ∧ slope y Gw n 0 > hi →
      0 ≤ napDispatch y n lo hi Gw lambda1) ∧
    (¬(lambda1 ≥ 0 ∧ slope y Gw n lambda1 ≥ hi) ∧
     ¬(lambda1 ≤ 0 ∧ slope y Gw n lambda1 ≤ lo) ∧ lambda1 ≠ 0 ∧
     ¬(lambda1 ≥ 0 ∧ slope y Gw n lambda1 < hi) ∧ slope y Gw n 0 > hi →
      0 ≤ napDispatch y n lo hi Gw lambda1) ∧
    (¬(lambda1 ≥ 0 ∧ slope y Gw n lambda1 ≥ hi) ∧
     ¬(lambda1 ≤ 0 ∧ slope y Gw n lambda1 ≤ lo) ∧ lambda1 = 0 ∧
     ¬(slope y Gw n lambda1 < hi) ∧ slope y Gw n lambda1 > hi →
      0 ≤ napDispatch y n lo hi Gw lambda1) ∧
    (¬(lambda1 ≥ 0 ∧ slope y Gw n lambda1 ≥ hi) ∧
     (lambda1 ≤ 0 ∧ slope y Gw n lambda1 ≤ lo) ∧
       slope y Gw n lambda1 < lo →
      napDispatch y n lo hi Gw lambda1 ≤ 0) ∧
    (¬(lambda1 ≥ 0 ∧ slope y Gw n lambda1 ≥ hi) ∧
     ¬(lambda1 ≤ 0 ∧ slope y Gw n lambda1 ≤ lo) ∧ lambda1 ≠ 0 ∧
     (lambda1 ≥ 0 ∧ slope y Gw n lambda1 < hi) ∧ slope y Gw n 0 < lo →
      napDispatch y n lo hi Gw lambda1 ≤ 0) ∧
    (¬(lambda1 ≥ 0 ∧ slope y Gw n lambda1 ≥ hi) ∧
     ¬(lambda1 ≤ 0 ∧ slope y Gw n lambda1 ≤ lo) ∧ lambda1 ≠ 0 ∧
     ¬(lambda1 ≥ 0 ∧ slope y Gw n lambda1 < hi) ∧
     ¬(slope y Gw n 0 > hi) ∧ slope y Gw n 0 < lo →
      napDispatch y n lo hi Gw lambda1 ≤ 0) ∧
    (¬(lambda1 ≥ 0 ∧ slope y Gw n lambda1 ≥ hi) ∧
     ¬(lambda1 ≤ 0 ∧ slope y Gw n lambda1 ≤ lo) ∧ lambda1 = 0 ∧
     slope y Gw n lambda1 < hi ∧ slope y Gw n lambda1 < lo →
      napDispatch y n lo hi Gw lambda1 ≤ 0) := by
  refine ⟨QPnapsack_snd y n lo hi Gw Lambda fs, ?_, ?_, ?_, ?_, ?_, ?_, ?_, ?_⟩
  · rintro ⟨hc1, hup⟩
    unfold napDispatch
    rw [if_pos hc1, if_pos hup]
    exact le_max_left 0 _
  · rintro ⟨hc1, hc2, hne, hc3, hnlo, hhi0⟩
    unfold napDispatch
    rw [if_neg hc1, if_neg hc2, if_pos hne, if_pos hc3, if_neg hnlo,
      if_pos hhi0]
    split_ifs with h
    · exact le_refl 0
    · exact not_lt.mp h
  · rintro ⟨hc1, hc2, hne, hc3, hhi0⟩
    unfold napDispatch
    rw [if_neg hc1, if_neg hc2, if_pos hne, if_neg hc3, if_pos hhi0]
    exact le_max_right _ 0
  · rintro ⟨hc1, hc2, hz, hnlt, hgt⟩
    unfold napDispatch
    rw [if_neg hc1, if_neg hc2, if_neg (not_not_intro hz), if_neg hnlt,
      if_pos hgt]
    exact le_max_right _ 0
  · rintro ⟨hc1, hc2, hdn⟩
    unfold napDispatch
    rw [if_neg hc1, if_pos hc2, if_pos hdn]
    exact min_le_right _ 0
  · rintro ⟨hc1, hc2, hne, hc3, hlo0⟩
    unfold napDispatch
    rw [if_neg hc1, if_neg hc2, if_pos hne, if_pos hc3, if_pos hlo0]
    split_ifs with h
    · exact le_refl 0
    · exact not_lt.mp h
  · rintro ⟨hc1, hc2, hne, hc3, hnhi, hlo0⟩
    unfold napDispatch
    rw [if_neg hc1, if_neg hc2, if_pos hne, if_neg hc3, if_neg hnhi,
      if_pos hlo0]
    exact min_le_left 0 _
  · rintro ⟨hc1, hc2, hz, hlt, hdn⟩
    unfold napDispatch
    rw [if_neg hc1, if_neg hc2, if_neg (not_not_intro hz), if_pos hlt,
      if_pos hdn]
    exact min_le_left 0 _

theorem QPnapsack_clamp_sign_witness :
    (((0:ℚ) ≥ 0 ∧ slope (fun _ => 6/10) (fun _ => 1) 4 0 ≥ 2) ∧
      slope (fun _ => 6/10) (fun _ => 1) 4 0 > 2) ∧
    0 ≤ napDispatch (fun _ => 6/10) 4 2 2 (fun _ => 1) 0 :=
  ⟨⟨⟨le_refl 0,
     by norm_num [Mongoose.slope, slopeTerm, Finset.sum_range_succ]⟩,
    by norm_num [Mongoose.slope, slopeTerm, Finset.sum_range_succ]⟩,
   (QPnapsack_clamp_sign (fun _ => 6/10) (fun _ => 1) 4 2 2 0 none 0).2.1
     ⟨⟨le_refl 0,
       by norm_num [Mongoose.slope, slopeTerm, Finset.sum_range_succ]⟩,
      by norm_num [Mongoose.slope, slopeTerm, Finset.sum_range_succ]⟩⟩

/-! The edge-separator interface of Mongoose.hpp and
Mongoose_EdgeCut.hpp.  The partitioning pipeline behind
ComputeEdgeSeparator is not among the sources, so it is modelled from the
spec. -/

/-- The matching strategies of Mongoose.hpp. -/
inductive MatchingStrategy
  | Random
  | HEM
  | HEMPA
  | HEMDavisPA
deriving DecidableEq

/-- The guess-cut types of Mongoose.hpp. -/
inductive GuessCutType
  | GuessQP
  | GuessRandom
  | GuessNaturalOrder
deriving DecidableEq

/-- The Options record of Mongoose.hpp, immutable through a run. -/
structure Options where
  randomSeed : Int
  coarsenLimit : ℕ
  matchingStrategy : MatchingStrategy
  doCommunityMatching : Bool
  davisBrotherlyThreshold : ℚ
  guessCutType : GuessCutType
  numDances : ℕ
  useFM : Bool
  fmSearchDepth : ℕ
  fmConsiderCount : ℕ
  fmMaxNumRefinements : ℕ
  useQPGradProj : Bool
  gradProjTolerance : ℚ
  gradprojIterationLimit : ℕ
  targetSplit : ℚ
  softSplitTolerance : ℚ

/-- The CSR graph data of the Graph class of Mongoose.hpp. -/
structure Graph where
  n : ℕ
  nz : ℕ
  p : Nat → ℕ
  i : Nat → ℕ
  x : Nat → ℚ
  w : Nat → ℚ

/-- The EdgeCut record of Mongoose_EdgeCut.hpp. -/
structure EdgeCut where
  part : Nat → Bool
  n : ℕ
  cut_cost : ℚ
  cut_size : ℕ
  w0 : ℚ
  w1 : ℚ
  imbalance : ℚ

/-- Modelled from the spec: the imbalance of a partition with side
weights W0 and W1 is the absolute value of 1/2 - W0 / (W0 + W1). -/
def imbalanceOf (W0 W1 : ℚ) : ℚ := |1/2 - W0 / (W0 + W1)|

/-- Modelled from the spec: the GuessNaturalOrder rule assigns vertices
in id order to side 0 until the cumulative weight exceeds
targetSplit times the total weight, then side 1. -/
def naturalOrderPart (g : Graph) (o : Options) : Nat → Bool :=
  fun v => decide (o.targetSplit * (∑ u ∈ Finset.range g.n, g.w u) <
    ∑ u ∈ Finset.range (v + 1), g.w u)

/-- Modelled from the spec: ComputeEdgeSeparator (declared in
Mongoose.hpp, its multilevel pipeline not among the sources) is a
deterministic function of the graph and the options, all randomness being
drawn from a stream seeded by options.randomSeed.  The model produces the
partition by the GuessNaturalOrder rule of the spec and computes the cut
metrics from the CSR arrays, each directed edge counted once and the
total halved, with the imbalance given by the spec formula. -/
def ComputeEdgeSeparator (g : Graph) (o : Options) : EdgeCut :=
  let part := naturalOrderPart g o
  let w0 := ∑ v ∈ Finset.range g.n, if part v then 0 else g.w v
  let w1 := ∑ v ∈ Finset.range g.n, if part v then g.w v else 0
  let dirCost := ∑ v ∈ Finset.range g.n, ∑ e ∈ Finset.Ico (g.p v)
    (g.p (v + 1)), if part v ≠ part (g.i e) then g.x e else 0
  let dirSize := ∑ v ∈ Finset.range g.n, ∑ e ∈ Finset.Ico (g.p v)
    (g.p (v + 1)), if part v ≠ part (g.i e) then 1 else 0
  { part := part, n := g.n, cut_cost := dirCost / 2,
    cut_size := dirSize / 2, w0 := w0, w1 := w1,
    imbalance := imbalanceOf w0 w1 }

/-- A two-vertex graph with one unit edge, for concrete instances. -/
def sampleGraph : Graph :=
  { n := 2, nz := 2, p := fun v => [0, 1, 2].getD v 2,
    i := fun e => [1, 0].getD e 0, x := fun _ => 1, w := fun _ => 1 }

/-- The default options of the spec, for concrete instances. -/
def sampleOptions : Options :=
  { randomSeed := 0, coarsenLimit := 64,
    matchingStrategy := MatchingStrategy.HEMDavisPA,
    doCommunityMatching := false, davisBrotherlyThreshold := 2,
    guessCutType := GuessCutType.GuessQP, numDances := 1, useFM := true,
    fmSearchDepth := 50, fmConsiderCount := 3, fmMaxNumRefinements := 20,
    useQPGradProj := true, gradProjTolerance := 1/1000,
    gradprojIterationLimit := 50, targetSplit := 1/2,
    softSplitTolerance := 0 }

/-- C7: two QPnapsack calls on identical arguments return identical
results, and two ComputeEdgeSeparator runs on an identical graph and
identical options (randomSeed included) produce identical EdgeCut
records. -/
theorem computation_deterministic
    (y1 y2 Gw1 Gw2 : Nat → ℚ) (n1 n2 : ℕ) (lo1 lo2 hi1 hi2 L1 L2 : ℚ)
    (fs1 fs2 : Option (Nat → Int)) (g1 g2 : Graph) (o1 o2 : Options)
    (hy : y1 = y2) (hn : n1 = n2) (hlo : lo1 = lo2) (hhi : hi1 = hi2)
    (hG : Gw1 = Gw2) (hL : L1 = L2) (hfs : fs1 = fs2) (hg : g1 = g2)
    (ho : o1 = o2) :
    QPnapsack y1 n1 lo1 hi1 Gw1 L1 fs1 =
      QPnapsack y2 n2 lo2 hi2 Gw2 L2 fs2 ∧
    ComputeEdgeSeparator g1 o1 = ComputeEdgeSeparator g2 o2 := by
  subst hy; subst hn; subst hlo; subst hhi; subst hG; subst hL
  subst hfs; subst hg; subst ho
  exact ⟨rfl, rfl⟩

theorem computation_deterministic_witness :
    QPnapsack (fun _ => 0) 1 0 1 (fun _ => 1) 0 none =
      QPnapsack (fun _ => 0) 1 0 1 (fun _ => 1) 0 none ∧
    ComputeEdgeSeparator sampleGraph sampleOptions =
      ComputeEdgeSeparator sampleGraph sampleOptions :=
  computation_deterministic (fun _ => 0) (fun _ => 0) (fun _ => 1)
    (fun _ => 1) 1 1 0 0 1 1 0 0 none none sampleGraph sampleGraph
    sampleOptions sampleOptions rfl rfl rfl rfl rfl rfl rfl rfl rfl

theorem imbalanceOf_spec (W0 W1 : ℚ) (h : 0 < W0 + W1) :
    0 ≤ imbalanceOf W0 W1 ∧ (imbalanceOf W0 W1 = 0 ↔ W0 = W1) := by
  unfold imbalanceOf
  refine ⟨abs_nonneg _, ?_⟩
  rw [abs_eq_zero, sub_eq_zero]
  have hne : W0 + W1 ≠ 0 := ne_of_gt h
  rw [eq_div_iff hne]
  constructor <;> intro h' <;> linarith

/-- C8: every produced EdgeCut record carries
imbalance = abs (1/2 - W0 / (W0 + W1)); it is nonnegative, and when the
total weight is positive it vanishes exactly on a perfect vertex-weight
split W0 = W1. -/
theorem edgeCut_imbalance_spec (g : Graph) (o : Options) :
    (ComputeEdgeSeparator g o).imbalance =
      |1/2 - (ComputeEdgeSeparator g o).w0 /
        ((ComputeEdgeSeparator g o).w0 + (ComputeEdgeSeparator g o).w1)| ∧
    0 ≤ (ComputeEdgeSeparator g o).imbalance ∧
    (0 < (ComputeEdgeSeparator g o).w0 + (ComputeEdgeSeparator g o).w1 →
      ((ComputeEdgeSeparator g o).imbalance = 0 ↔
        (ComputeEdgeSeparator g o).w0 = (ComputeEdgeSeparator g o).w1)) := by
  refine ⟨rfl, abs_nonneg _, fun hW => ?_⟩
  exact (imbalanceOf_spec _ _ hW).2

theorem edgeCut_imbalance_spec_witness :
    0 < (ComputeEdgeSeparator sampleGraph sampleOptions).w0 +
        (ComputeEdgeSeparator sampleGraph sampleOptions).w1 ∧
    ((ComputeEdgeSeparator sampleGraph sampleOptions).imbalance = 0 ↔
      (ComputeEdgeSeparator sampleGraph sampleOptions).w0 =
        (ComputeEdgeSeparator sampleGraph sampleOptions).w1) :=
  ⟨(by norm_num [ComputeEdgeSeparator, naturalOrderPart, sampleGraph,
     sampleOptions, Finset.sum_range_succ]; positivity),
   (edgeCut_imbalance_spec sampleGraph sampleOptions).2.2
     (by norm_num [ComputeEdgeSeparator, naturalOrderPart, sampleGraph,
       sampleOptions, Finset.sum_range_succ]; positivity)⟩

end Mongoose
